import Mathlib

set_option maxRecDepth 4000

/-!
Verification of the hadith batch-translator (`hadith_translator.py`).

The program is embedded shallowly at the level of `List Char` for all string
processing, because the Python code works on strings via `strip`, `split`,
`isdigit` and `int`, whose behaviour is mirrored character by character below.
Side effects (batch files on disk, the external Gemini call) are made explicit:
the external service is a parameter `service : String → Option String`
(`none` models any exception raised inside a chunk's `try` block), file writes
become `SaveEvent` values, and the directory is an association list from batch
number to file content.
-/

/-! ## Character-level models of the Python string primitives -/

/-- Model of whitespace as tested by Python's `str.strip`.  All whitespace
characters occurring in this development are ASCII, where Python's notion and
`Char.isWhitespace` agree. -/
def isPyWhitespace (c : Char) : Bool := c.isWhitespace

/-- Model of Python `str.strip()`: drop whitespace from both ends. -/
def trimChars (l : List Char) : List Char :=
  ((l.dropWhile isPyWhitespace).reverse.dropWhile isPyWhitespace).reverse

/-- Superscript and subscript decimal digits: characters for which Python's
`str.isdigit` returns `True` (Unicode property `Numeric_Type=Digit`) but which
`int()` rejects with a `ValueError`. -/
def superscriptDigits : List Char :=
  ['¹', '²', '³', '⁰', '⁴', '⁵', '⁶', '⁷', '⁸', '⁹',
   '₀', '₁', '₂', '₃', '₄', '₅', '₆', '₇', '₈', '₉']

/-- Model of Python `str.isdigit` on one character: true on the ASCII digits
and on digit-like characters such as superscripts.  (Python also accepts
other Unicode digits; the model covers the character classes exercised in this
development.) -/
def pyIsDigit (c : Char) : Bool := c.isDigit || superscriptDigits.contains c

/-- Model of Python `str.isdigit` on a string: nonempty and all digits. -/
def pyStrIsDigit (l : List Char) : Bool := !l.isEmpty && l.all pyIsDigit

/-- Numeric value of an ASCII digit character. -/
def digitVal (c : Char) : Nat := c.toNat - 48

/-- Decimal value of a string of ASCII digits (most significant first). -/
def natOfDigits (l : List Char) : Nat := l.foldl (fun n c => 10 * n + digitVal c) 0

/-- Model of Python `int(s)` restricted to the call site in the parser, where
`s` has already been stripped and passed `isdigit`: it succeeds exactly on
nonempty strings of ASCII decimal digits, and fails (raising `ValueError`) on
digit-like characters such as `'²'`. -/
def pyIntOfString (l : List Char) : Option Nat :=
  if !l.isEmpty && l.all Char.isDigit then some (natOfDigits l) else none

/-- Digit-count recursion for `natDigits`, structural on a fuel argument so
that it reduces definitionally; the fuel never runs out when it starts at
least at `n + 1`. -/
def natDigitsAux : Nat → Nat → List Char
  | 0, _ => []
  | fuel + 1, n =>
    if n < 10 then [Char.ofNat (48 + n)]
    else natDigitsAux fuel (n / 10) ++ [Char.ofNat (48 + n % 10)]

/-- The decimal numeral of a natural number, used to build synthetic service
replies.  Certified as the decimal representation by `natOfDigits_natDigits`
and `mem_natDigits_isDigit` below. -/
def natDigits (n : Nat) : List Char := natDigitsAux (n + 1) n

/-! ## Data model -/

/-- One entry of the JSON array produced by the parser: the Python dict
`{'id': current_id, target_language.lower(): ' '.join(current_translation)}`.
The dictionary key is the lowercased target language, constant for the whole
run, so only the id and the translated text are carried. -/
structure TranslatedRecord where
  id : Nat
  translation : String
deriving DecidableEq

/-- The `english` field of an input record: either a nested
`{narrator, text}` object, a plain string, or absent. -/
inductive EnglishField where
  | structured (narrator text : String)
  | plain (s : String)
  | absent
deriving DecidableEq

/-- One input record (`hadith`), with its required `id` and the fields read by
`create_batch_prompt`. -/
structure Hadith where
  id : Nat
  arabic : String
  english : EnglishField
deriving DecidableEq

/-! ## Prompt builder (`create_batch_prompt`) -/

/-- The flattened English text of a record: `f"{narrator} {text}".strip()` for
a structured field, the string itself for a plain field, `str('')` when
absent. -/
def englishTextOf (h : Hadith) : String :=
  match h.english with
  | .structured narrator text => String.mk (trimChars (narrator ++ " " ++ text).data)
  | .plain s => s
  | .absent => ""

/-- One formatted entry of the prompt body:
`f"ID: {id}\nArabic: {arabic}\nEnglish: {english_text}"`. -/
def hadithEntry (h : Hadith) : String :=
  "ID: " ++ toString h.id ++ "\n" ++ "Arabic: " ++ h.arabic ++ "\n" ++
    "English: " ++ englishTextOf h

/-- The fixed instructional header of the prompt. -/
def promptHeader (targetLanguage : String) : String :=
  "Translate the following hadith texts to " ++ targetLanguage ++ ".\n" ++
    "For each hadith, return only the ID and translation in this exact format:\n" ++
    "[ID]: [" ++ targetLanguage ++ " translation]\n\n" ++
    "Here are the hadiths:\n\n"

/-- Model of `create_batch_prompt`: the loop appending one entry per hadith is
the map below, and the result is the single text block sent to the service
(the source wraps it as `[{"text": ...}]`). -/
def create_batch_prompt (targetLanguage : String) (hadiths : List Hadith) : String :=
  promptHeader targetLanguage ++ String.intercalate "\n\n" (hadiths.map hadithEntry)

/-! ## Response parser (`parse_gemini_response`) -/

/-- The loop state of `parse_gemini_response`: the accumulated `translations`
list, `current_id` and `current_translation`. -/
structure ParseState where
  translations : List TranslatedRecord
  currentId : Option Nat
  currentTranslation : List (List Char)
deriving DecidableEq

/-- The flush performed both when a new identifier line begins and after the
loop: append `{'id': current_id, ...: ' '.join(current_translation)}` when
`current_id is not None and current_translation`. -/
def flushCurrent (st : ParseState) : List TranslatedRecord :=
  match st.currentId with
  | none => st.translations
  | some i =>
    if st.currentTranslation.isEmpty then st.translations
    else st.translations ++
      [{ id := i, translation := String.mk (List.intercalate [' '] st.currentTranslation) }]

/-- `line.split(':')[0]`, i.e. the text before the first colon (the whole line
when there is no colon). -/
def beforeColon (line : List Char) : List Char := line.takeWhile (fun c => c != ':')

/-- `line.split(':', 1)[1]`, i.e. the text after the first colon. -/
def afterColon (line : List Char) : List Char := (line.dropWhile (fun c => c != ':')).drop 1

/-- One iteration of the parser loop.  The `Except` models the uncaught
`ValueError` of `int(parts[0].strip())`, reachable when the pre-colon text
passes `isdigit` but is not a decimal numeral (see `superscriptDigits`). -/
def parseLine (st : ParseState) (rawLine : List Char) : Except String ParseState :=
  let line := trimChars rawLine
  if line.isEmpty then .ok st
  else if line.contains ':' && pyStrIsDigit (trimChars (beforeColon line)) then
    match pyIntOfString (trimChars (beforeColon line)) with
    | none => .error "invalid literal for int() with base 10"
    | some n =>
      .ok { translations := flushCurrent st, currentId := some n,
            currentTranslation := [trimChars (afterColon line)] }
  else
    match st.currentId with
    | some _ => .ok { st with currentTranslation := st.currentTranslation ++ [line] }
    | none => .ok st

/-- Model of `parse_gemini_response`: strip the reply, split it into lines,
run the line loop, flush the final record. -/
def parse_gemini_response (responseText : String) : Except String (List TranslatedRecord) :=
  match (List.splitOn '\n' (trimChars responseText.data)).foldlM parseLine
      { translations := [], currentId := none, currentTranslation := [] } with
  | .error e => .error e
  | .ok st => .ok (flushCurrent st)

/-! ## Chunk files and combination (`save_batch`, `combine_batches_except_last`) -/

/-- What `json.load` yields for one batch file: a JSON array of records, some
other JSON value (object, string, number, ...), or a `JSONDecodeError`. -/
inductive BatchFileContent where
  | jsonList (records : List TranslatedRecord)
  | jsonOther
  | malformed
deriving DecidableEq

/-- Whether a file raises `json.JSONDecodeError` (the only logged case). -/
def isMalformed (f : BatchFileContent) : Bool :=
  match f with
  | .malformed => true
  | _ => false

/-- One iteration of the combination loop, threading the combined list and the
number of `Error reading ...` messages printed so far.  A decodable file
contributes only under `batch_data and isinstance(batch_data, list)`, with
`batch_data[:-1]` when it has fewer than 20 entries. -/
def combineStep (acc : List TranslatedRecord × Nat) (f : BatchFileContent) :
    List TranslatedRecord × Nat :=
  match f with
  | .malformed => (acc.1, acc.2 + 1)
  | .jsonOther => acc
  | .jsonList records =>
    if records.isEmpty then acc
    else if records.length < 20 then (acc.1 ++ records.dropLast, acc.2)
    else (acc.1 ++ records, acc.2)

/-- Model of `combine_batches_except_last` on the directory contents listed in
batch-number order: returns the combined records and the number of logged
decode errors. -/
def combine_batches_except_last (files : List BatchFileContent) :
    List TranslatedRecord × Nat :=
  files.foldl combineStep ([], 0)

/-- Model of `find_missing_hadiths`: keep the original hadiths whose id is not
among the translated ids (the Python `set` membership test is list membership
here). -/
def find_missing_hadiths (originalHadiths : List Hadith)
    (translatedHadiths : List TranslatedRecord) : List Hadith :=
  let translatedIds := translatedHadiths.map (fun t => t.id)
  originalHadiths.filter (fun h => !translatedIds.contains h.id)

/-! ## Translation loop (`translate_hadiths`) -/

/-- One `save_batch` call: the write of `batch_{batchNum}.json`. -/
structure SaveEvent where
  batchNum : Nat
  records : List TranslatedRecord
deriving DecidableEq

/-- Chunking loop, structural on a fuel argument (the initial list length)
so that it reduces definitionally; with positive `batchSize` the list shrinks
by at least one element per step, so fuel `l.length` never runs out. -/
def chunksGo (batchSize : Nat) : Nat → List Hadith → List (List Hadith)
  | _, [] => []
  | 0, _ :: _ => []
  | fuel + 1, x :: xs =>
    (x :: xs).take batchSize :: chunksGo batchSize fuel ((x :: xs).drop batchSize)

/-- The slices `hadiths[i:i+batch_size]` for `i in range(0, len(hadiths),
batch_size)`.  `batch_size = 0` would make Python's `range` raise; the callers
only pass 5 or 20. -/
def chunksOf (batchSize : Nat) (l : List Hadith) : List (List Hadith) :=
  if batchSize = 0 then [] else chunksGo batchSize l.length l

/-- The body of one iteration of the chunk loop up to `save_batch`: build the
prompt, call the service, parse the reply.  `none` models the `except` branch
being taken — an exception in the external call (`service` returns `none`) or
in the parser (`parse_gemini_response` returns `.error`). -/
def chunkResult (targetLanguage : String) (service : String → Option String)
    (batch : List Hadith) : Option (List TranslatedRecord) :=
  match service (create_batch_prompt targetLanguage batch) with
  | none => none
  | some replyText =>
    match parse_gemini_response replyText with
    | .error _ => none
    | .ok batchTranslations => some batchTranslations

/-- The chunk loop of `translate_hadiths`: on success the batch is saved as
`batch_{batchNum}.json`, appended to `translations`, and `batch_num` is
incremented; on an exception the loop just continues (so the number is
reused by the next successful chunk). -/
def translateLoop (targetLanguage : String) (service : String → Option String) :
    List (List Hadith) → Nat → List TranslatedRecord × List SaveEvent
  | [], _ => ([], [])
  | batch :: rest, batchNum =>
    match chunkResult targetLanguage service batch with
    | some batchTranslations =>
      let r := translateLoop targetLanguage service rest (batchNum + 1)
      (batchTranslations ++ r.1, ⟨batchNum, batchTranslations⟩ :: r.2)
    | none => translateLoop targetLanguage service rest batchNum

/-- Model of `translate_hadiths`: chunk the input and run the loop with
`batch_num = 1`. -/
def translate_hadiths (targetLanguage : String) (service : String → Option String)
    (hadiths : List Hadith) (batchSize : Nat) : List TranslatedRecord × List SaveEvent :=
  translateLoop targetLanguage service (chunksOf batchSize hadiths) 1

/-! ## Directory state and the orchestrator (`process_all`) -/

/-- Write `batch_{batchNum}.json`: overwrite the entry if the name exists in
the directory, else add it. -/
def fsWrite (files : List (Nat × List TranslatedRecord)) (batchNum : Nat)
    (records : List TranslatedRecord) : List (Nat × List TranslatedRecord) :=
  if files.any (fun p => p.1 == batchNum) then
    files.map (fun p => if p.1 == batchNum then (batchNum, records) else p)
  else files ++ [(batchNum, records)]

/-- The directory contents after a list of `save_batch` calls. -/
def fsAfterSaves (init : List (Nat × List TranslatedRecord)) (saves : List SaveEvent) :
    List (Nat × List TranslatedRecord) :=
  saves.foldl (fun fs s => fsWrite fs s.batchNum s.records) init

/-- Insertion into a list sorted by batch number. -/
def insertByNum (p : Nat × List TranslatedRecord) :
    List (Nat × List TranslatedRecord) → List (Nat × List TranslatedRecord)
  | [] => [p]
  | q :: qs => if p.1 ≤ q.1 then p :: q :: qs else q :: insertByNum p qs

/-- The directory listing sorted by the numeric key `int(x.split('_')[1].split('.')[0])`,
as `combine_batches_except_last` does. -/
def sortByBatchNum (files : List (Nat × List TranslatedRecord)) :
    List (Nat × List TranslatedRecord) :=
  files.foldr insertByNum []

/-- Reading every batch file in sorted order: each file written by
`save_batch` holds a JSON array. -/
def listBatchFiles (files : List (Nat × List TranslatedRecord)) : List BatchFileContent :=
  (sortByBatchNum files).map (fun p => BatchFileContent.jsonList p.2)

/-- The observable outcome of one `process_all` run. -/
structure RunResult where
  pass1Saves : List SaveEvent
  combinedAfterPass1 : List TranslatedRecord
  combineErrors : Nat
  missingHadiths : List Hadith
  pass2BatchSize : Option Nat
  pass2Saves : List SaveEvent
  finalTranslations : List TranslatedRecord
deriving DecidableEq

/-- Model of `process_all`: pass 1 with batch size 20 (its return value is
discarded, as in the source), combination from disk, missing check, and at
most one reconciliation pass whose return value is appended in memory;
`finalTranslations` is what is written to `final_translations.json`. -/
def process_all (targetLanguage : String) (service : String → Option String)
    (hadiths : List Hadith) : RunResult :=
  let pass1 := translate_hadiths targetLanguage service hadiths 20
  let diskAfterPass1 := fsAfterSaves [] pass1.2
  let combined := combine_batches_except_last (listBatchFiles diskAfterPass1)
  let missing := find_missing_hadiths hadiths combined.1
  if missing.isEmpty then
    { pass1Saves := pass1.2, combinedAfterPass1 := combined.1,
      combineErrors := combined.2, missingHadiths := missing,
      pass2BatchSize := none, pass2Saves := [],
      finalTranslations := combined.1 }
  else
    let batchSize := if missing.length < 20 then 5 else 20
    let pass2 := translate_hadiths targetLanguage service missing batchSize
    { pass1Saves := pass1.2, combinedAfterPass1 := combined.1,
      combineErrors := combined.2, missingHadiths := missing,
      pass2BatchSize := some batchSize, pass2Saves := pass2.2,
      finalTranslations := combined.1 ++ pass2.1 }

/-! ## Concrete scenario: 25 records and a well-behaved service -/

/-- Twenty-five input records with ids 1..25. -/
def hadiths25 : List Hadith :=
  (List.range 25).map (fun i => { id := i + 1, arabic := "matn", english := .plain "text" })

/-- A service that returns a valid, complete reply for every chunk: it answers
each `ID: {id}` line of the prompt with a `{id}: Translated {id}` line. -/
def perfectService (prompt : String) : Option String :=
  some (String.mk (List.intercalate ['\n']
    ((List.splitOn '\n' prompt.data).filterMap (fun l =>
      if l.take 4 = ("ID: ").data then
        some (l.drop 4 ++ (": Translated ").data ++ l.drop 4)
      else none))))

/-! ## Auxiliary concrete data and spec-side definitions -/

/-- The records one batch file contributes to the combined result, per the
combination rule of the spec: a list of fewer than 20 records loses its last
entry, a list of 20 or more is kept whole, anything else contributes
nothing. -/
def fileContribution (f : BatchFileContent) : List TranslatedRecord :=
  match f with
  | .jsonList records => if records.length < 20 then records.dropLast else records
  | .jsonOther => []
  | .malformed => []

/-- Nineteen concrete records, for the C3 witness. -/
def records19 : List TranslatedRecord := (List.range 19).map (fun i => ⟨i, "t"⟩)

/-- Twenty concrete records, for the C3 witness. -/
def records20 : List TranslatedRecord := (List.range 20).map (fun i => ⟨i, "t"⟩)

/-- Five concrete input records with ids 1..5. -/
def inputFive : List Hadith :=
  [⟨1, "", .absent⟩, ⟨2, "", .absent⟩, ⟨3, "", .absent⟩, ⟨4, "", .absent⟩, ⟨5, "", .absent⟩]

/-- Three concrete translated records with ids 1, 2 and 4. -/
def translatedThree : List TranslatedRecord := [⟨1, "a"⟩, ⟨2, "b"⟩, ⟨4, "c"⟩]

/-- A service that fails on every prompt. -/
def failingService (_ : String) : Option String := none

/-- The reply line `"{id}: {text}"` for one (id, text) pair. -/
def syntheticLine (p : Nat × String) : List Char :=
  natDigits p.1 ++ ':' :: ' ' :: p.2.data

/-- A synthetic service reply: the lines `"{id}: {text}"` joined by
newlines. -/
def syntheticReply (pairs : List (Nat × String)) : String :=
  String.mk (List.intercalate ['\n'] (pairs.map syntheticLine))

/-! ## Combination: per-file contribution -/

lemma foldl_combineStep (files : List BatchFileContent) (acc : List TranslatedRecord)
    (e : Nat) :
    files.foldl combineStep (acc, e) =
      (acc ++ (files.map fileContribution).flatten, e + files.countP isMalformed) := by
  induction files generalizing acc e with
  | nil => simp
  | cons f rest ih =>
    rw [List.foldl_cons]
    cases f with
    | malformed =>
      rw [show combineStep (acc, e) BatchFileContent.malformed = (acc, e + 1) from rfl, ih]
      simp only [List.map_cons, List.flatten_cons, List.countP_cons, fileContribution,
        isMalformed, List.nil_append, Prod.mk.injEq]
      exact ⟨trivial, by simp; omega⟩
    | jsonOther =>
      rw [show combineStep (acc, e) BatchFileContent.jsonOther = (acc, e) from rfl, ih]
      simp [fileContribution, isMalformed, List.countP_cons]
    | jsonList records =>
      by_cases hrec : records.isEmpty
      · rw [List.isEmpty_iff] at hrec
        subst hrec
        rw [show combineStep (acc, e) (BatchFileContent.jsonList []) = (acc, e) from rfl, ih]
        simp [fileContribution, isMalformed, List.countP_cons]
      · by_cases hlen : records.length < 20
        · rw [show combineStep (acc, e) (BatchFileContent.jsonList records) =
              (acc ++ records.dropLast, e) from by
            simp [combineStep, hrec, hlen], ih]
          simp [fileContribution, isMalformed, hlen, List.countP_cons, List.append_assoc]
        · rw [show combineStep (acc, e) (BatchFileContent.jsonList records) =
              (acc ++ records, e) from by
            simp [combineStep, hrec, hlen], ih]
          simp [fileContribution, isMalformed, hlen, List.countP_cons, List.append_assoc]

lemma combine_eq (files : List BatchFileContent) :
    combine_batches_except_last files =
      ((files.map fileContribution).flatten, files.countP isMalformed) := by
  have h := foldl_combineStep files [] 0
  simpa [combine_batches_except_last] using h

/-- C3: during combination every chunk file parsing to a list of fewer than
20 records contributes all its records but the last, every file with a list
of 20 or more contributes all of them, in file order; in particular a
19-record file contributes its first 18 and a 20-record file all 20. -/
theorem combine_trims_short_files_only :
    (∀ files : List BatchFileContent,
      (combine_batches_except_last files).1 = (files.map fileContribution).flatten) ∧
    (∀ records : List TranslatedRecord,
      (records.length < 20 →
        fileContribution (.jsonList records) = records.dropLast) ∧
      (20 ≤ records.length →
        fileContribution (.jsonList records) = records) ∧
      (records.length = 19 →
        fileContribution (.jsonList records) = records.take 18) ∧
      (records.length = 20 →
        fileContribution (.jsonList records) = records)) := by
  refine ⟨fun files => by rw [combine_eq], fun records => ⟨?_, ?_, ?_, ?_⟩⟩
  · intro h
    simp [fileContribution, h]
  · intro h
    simp [fileContribution, Nat.not_lt.mpr h]
  · intro h
    rw [show fileContribution (.jsonList records) = records.dropLast from by
      simp [fileContribution, h], List.dropLast_eq_take, h]
  · intro h
    simp [fileContribution, h]

/-- Witness for C3 at a concrete 19-record file and a concrete 20-record
file. -/
theorem combine_trims_short_files_only_witness :
    (combine_batches_except_last
      [.jsonList records19, .jsonList records20]).1 = records19.take 18 ++ records20 := by
  have h := combine_trims_short_files_only
  rw [h.1]
  simp only [List.map_cons, List.map_nil, List.flatten_cons, List.flatten_nil,
    List.append_nil]
  rw [(h.2 records19).2.2.1 (by decide), (h.2 records20).2.2.2 (by decide)]

/-- C10: a chunk file that parses as an empty list, or as JSON that is not a
list, contributes zero records and no log message; only decode failures are
counted as logged errors. -/
theorem combine_silent_skip (pre post files : List BatchFileContent) :
    combine_batches_except_last (pre ++ BatchFileContent.jsonList [] :: post) =
      combine_batches_except_last (pre ++ post) ∧
    combine_batches_except_last (pre ++ BatchFileContent.jsonOther :: post) =
      combine_batches_except_last (pre ++ post) ∧
    (combine_batches_except_last files).2 = files.countP isMalformed := by
  refine ⟨?_, ?_, by rw [combine_eq]⟩ <;>
    simp [combine_eq, fileContribution, isMalformed, List.countP_append, List.countP_cons]

/-- Witness for C10: an empty-list file and an object file between two real
files change nothing, and the only logged error is the malformed file. -/
theorem combine_silent_skip_witness :
    combine_batches_except_last
        [.jsonList records19, .jsonList [], .malformed] =
      combine_batches_except_last [.jsonList records19, .malformed] ∧
    combine_batches_except_last
        [.jsonList records19, .jsonOther, .malformed] =
      combine_batches_except_last [.jsonList records19, .malformed] ∧
    (combine_batches_except_last
        [.jsonList records19, .jsonList [], .jsonOther, .malformed]).2 = 1 := by
  have h := combine_silent_skip [BatchFileContent.jsonList records19]
    [BatchFileContent.malformed]
    [BatchFileContent.jsonList records19, BatchFileContent.jsonList [],
      BatchFileContent.jsonOther, BatchFileContent.malformed]
  exact ⟨h.1, h.2.1, by rw [h.2.2]; decide⟩

/-! ## Missing-record detection -/

/-- C4: a record is in the missing set exactly when it is an input record
whose id does not occur among the translated ids; for input ids 1..5 and
translated ids 1, 2, 4 the missing ids are exactly 3 and 5. -/
theorem find_missing_iff :
    (∀ (original : List Hadith) (translated : List TranslatedRecord) (h : Hadith),
      h ∈ find_missing_hadiths original translated ↔
        h ∈ original ∧ h.id ∉ translated.map (fun t => t.id)) ∧
    (find_missing_hadiths inputFive translatedThree).map (fun h => h.id) = [3, 5] := by
  constructor
  · intro original translated h
    simp [find_missing_hadiths, List.mem_filter, List.elem_iff]
  · decide

/-- Witness for C4: the record with id 3 is missing, the record with id 4 is
not. -/
theorem find_missing_iff_witness :
    (⟨3, "", EnglishField.absent⟩ : Hadith) ∈ find_missing_hadiths inputFive translatedThree ∧
    (⟨4, "", EnglishField.absent⟩ : Hadith) ∉ find_missing_hadiths inputFive translatedThree := by
  constructor
  · exact (find_missing_iff.1 inputFive translatedThree _).mpr (by decide)
  · intro hmem
    have h := (find_missing_iff.1 inputFive translatedThree _).mp hmem
    revert h
    decide

/-! ## Translation loop: error isolation and batch numbering -/

lemma translateLoop_filter (targetLanguage : String) (service : String → Option String)
    (chunks : List (List Hadith)) (n : Nat) :
    translateLoop targetLanguage service chunks n =
      translateLoop targetLanguage service
        (chunks.filter (fun b => (chunkResult targetLanguage service b).isSome)) n := by
  induction chunks generalizing n with
  | nil => rfl
  | cons b rest ih =>
    cases hc : chunkResult targetLanguage service b with
    | none => simp [translateLoop, hc, List.filter_cons, ih]
    | some ts => simp [translateLoop, hc, List.filter_cons, ih]

lemma translateLoop_saves_count (targetLanguage : String) (service : String → Option String)
    (chunks : List (List Hadith)) (n : Nat) :
    (translateLoop targetLanguage service chunks n).2.length =
      chunks.countP (fun b => (chunkResult targetLanguage service b).isSome) := by
  induction chunks generalizing n with
  | nil => rfl
  | cons b rest ih =>
    cases hc : chunkResult targetLanguage service b with
    | none => simp [translateLoop, hc, List.countP_cons, ih]
    | some ts => simp [translateLoop, hc, List.countP_cons, ih]

/-- C8: a chunk whose processing raises (external call or parse) contributes
zero translated records and no chunk file, and the loop continues: the whole
run equals the run on the successful chunks alone, and exactly one file is
saved per successful chunk. -/
theorem chunk_errors_isolated (targetLanguage : String) (service : String → Option String)
    (hadiths : List Hadith) (batchSize : Nat) :
    translate_hadiths targetLanguage service hadiths batchSize =
      translateLoop targetLanguage service
        ((chunksOf batchSize hadiths).filter
          (fun b => (chunkResult targetLanguage service b).isSome)) 1 ∧
    (translate_hadiths targetLanguage service hadiths batchSize).2.length =
      (chunksOf batchSize hadiths).countP
        (fun b => (chunkResult targetLanguage service b).isSome) := by
  constructor
  · exact translateLoop_filter targetLanguage service (chunksOf batchSize hadiths) 1
  · exact translateLoop_saves_count targetLanguage service (chunksOf batchSize hadiths) 1

/-- Witness for C8: with a service failing on every chunk, 25 records yield
no translations and no saved files. -/
theorem chunk_errors_isolated_witness :
    translate_hadiths "French" failingService hadiths25 20 =
      translateLoop "French" failingService
        ((chunksOf 20 hadiths25).filter
          (fun b => (chunkResult "French" failingService b).isSome)) 1 ∧
    (translate_hadiths "French" failingService hadiths25 20).2.length = 0 := by
  have h := chunk_errors_isolated "French" failingService hadiths25 20
  exact ⟨h.1, by rw [h.2]; decide⟩

lemma translateLoop_batchNums (targetLanguage : String) (service : String → Option String)
    (chunks : List (List Hadith)) (n : Nat) :
    (translateLoop targetLanguage service chunks n).2.map (fun s => s.batchNum) =
      List.range' n (translateLoop targetLanguage service chunks n).2.length := by
  induction chunks generalizing n with
  | nil => rfl
  | cons b rest ih =>
    cases hc : chunkResult targetLanguage service b with
    | none => simp [translateLoop, hc, ih]
    | some ts =>
      simp only [translateLoop, hc, List.map_cons, List.length_cons, List.range'_succ]
      rw [ih]

/-- C5 (amended): within a single invocation of `translate_hadiths` the saved
batch numbers are exactly 1, 2, ..., k in order — each file name is written at
most once per pass and the numbers increase consecutively from 1. -/
theorem saves_unique_within_pass (targetLanguage : String)
    (service : String → Option String) (hadiths : List Hadith) (batchSize : Nat) :
    (translate_hadiths targetLanguage service hadiths batchSize).2.map
        (fun s => s.batchNum) =
      List.range' 1 (translate_hadiths targetLanguage service hadiths batchSize).2.length :=
  translateLoop_batchNums targetLanguage service (chunksOf batchSize hadiths) 1

/-- Witness for the amended C5: the 25-record pass-1 run writes batch files
1 and 2, once each. -/
theorem saves_unique_within_pass_witness :
    (translate_hadiths "French" perfectService hadiths25 20).2.map
        (fun s => s.batchNum) = [1, 2] := by
  have h := saves_unique_within_pass "French" perfectService hadiths25 20
  rw [h]
  decide

/-! ## Closed theorems on the concrete 25-record scenario -/

/-- C1: with 25 input records and a service answering every chunk completely,
pass 1 writes chunk files of 20 and 5 records, combination keeps 20 + 4 = 24,
exactly one record is missing, pass 2 runs with chunk size 5 and recovers it,
and the final output holds 25 records. -/
theorem end_to_end_25_records :
    (process_all "French" perfectService hadiths25).pass1Saves.map
        (fun s => (s.batchNum, s.records.length)) = [(1, 20), (2, 5)] ∧
    (process_all "French" perfectService hadiths25).combinedAfterPass1.length = 24 ∧
    (process_all "French" perfectService hadiths25).missingHadiths.map
        (fun h => h.id) = [25] ∧
    (process_all "French" perfectService hadiths25).pass2BatchSize = some 5 ∧
    (process_all "French" perfectService hadiths25).pass2Saves.map
        (fun s => s.records.length) = [1] ∧
    (process_all "French" perfectService hadiths25).finalTranslations.length = 25 := by
  decide

/-- Counterexample to C5: in the same 25-record run the reconciliation pass
restarts numbering at 1, so `batch_1.json` is written twice — first with 20
records, then overwritten with 1 record. -/
theorem batch_one_written_twice :
    ((process_all "French" perfectService hadiths25).pass1Saves ++
        (process_all "French" perfectService hadiths25).pass2Saves).map
        (fun s => s.batchNum) = [1, 2, 1] ∧
    (process_all "French" perfectService hadiths25).pass1Saves.map
        (fun s => s.records.length) = [20, 5] ∧
    (process_all "French" perfectService hadiths25).pass2Saves.map
        (fun s => s.records.length) = [1] := by
  decide

/-- Counterexample to C6: an identifier line followed by nothing but blank
lines does emit a record, with the empty translation. -/
theorem identifier_line_alone_emits_record :
    parse_gemini_response "5:\n\n" = .ok [{ id := 5, translation := "" }] := by
  rfl

/-- C7 at its failing input: a line whose pre-colon text is the superscript
two passes the `isdigit` guard yet is rejected by `int()`, so the parser
raises instead of returning a list. -/
theorem parser_raises_on_superscript_digit :
    parse_gemini_response (String.mk ['²', ':', ' ', 'a']) =
      .error "invalid literal for int() with base 10" := by
  rfl

/-! ## Facts about decimal numerals -/

lemma digitVal_ofNat (r : Nat) (h : r < 10) : digitVal (Char.ofNat (48 + r)) = r := by
  interval_cases r <;> decide

lemma isDigit_ofNat (r : Nat) (h : r < 10) : (Char.ofNat (48 + r)).isDigit = true := by
  interval_cases r <;> decide

lemma natOfDigits_concat (a : List Char) (c : Char) :
    natOfDigits (a ++ [c]) = 10 * natOfDigits a + digitVal c := by
  rw [natOfDigits, List.foldl_append]
  rfl

lemma natDigitsAux_spec (fuel : Nat) :
    ∀ n : Nat, n < fuel →
      natOfDigits (natDigitsAux fuel n) = n ∧
      natDigitsAux fuel n ≠ [] ∧
      ∀ c ∈ natDigitsAux fuel n, c.isDigit = true := by
  induction fuel with
  | zero => intro n h; omega
  | succ f ih =>
    intro n h
    by_cases h10 : n < 10
    · have hrw : natDigitsAux (f + 1) n = [Char.ofNat (48 + n)] := by
        simp [natDigitsAux, h10]
      rw [hrw]
      refine ⟨?_, by simp, ?_⟩
      · rw [show [Char.ofNat (48 + n)] = [] ++ [Char.ofNat (48 + n)] from rfl,
          natOfDigits_concat, digitVal_ofNat n h10,
          show natOfDigits [] = 0 from rfl]
        omega
      · intro c hc
        rw [List.mem_singleton] at hc
        subst hc
        exact isDigit_ofNat n h10
    · have hrw : natDigitsAux (f + 1) n =
          natDigitsAux f (n / 10) ++ [Char.ofNat (48 + n % 10)] := by
        simp [natDigitsAux, h10]
      have hdiv : n / 10 < f := by omega
      obtain ⟨ihv, ihne, ihdig⟩ := ih (n / 10) hdiv
      have hmod : n % 10 < 10 := Nat.mod_lt _ (by omega)
      rw [hrw]
      refine ⟨?_, by simp, ?_⟩
      · rw [natOfDigits_concat, ihv, digitVal_ofNat _ hmod]
        omega
      · intro c hc
        rcases List.mem_append.mp hc with hmem | hmem
        · exact ihdig c hmem
        · rw [List.mem_singleton] at hmem
          subst hmem
          exact isDigit_ofNat _ hmod

lemma natOfDigits_natDigits (n : Nat) : natOfDigits (natDigits n) = n :=
  (natDigitsAux_spec (n + 1) n (by omega)).1

lemma natDigits_ne_nil (n : Nat) : natDigits n ≠ [] :=
  (natDigitsAux_spec (n + 1) n (by omega)).2.1

lemma mem_natDigits_isDigit (n : Nat) (c : Char) (h : c ∈ natDigits n) : c.isDigit = true :=
  (natDigitsAux_spec (n + 1) n (by omega)).2.2 c h

/-! ## Facts about digit characters -/

lemma isDigit_not_ws (c : Char) (h : c.isDigit = true) : isPyWhitespace c = false := by
  by_contra hw
  rw [Bool.not_eq_false] at hw
  unfold isPyWhitespace Char.isWhitespace at hw
  simp only [Bool.or_eq_true, decide_eq_true_eq] at hw
  rcases hw with ((rfl | rfl) | rfl) | rfl <;> exact absurd h (by decide)

lemma isDigit_ne_colon (c : Char) (h : c.isDigit = true) : c ≠ ':' := by
  intro he
  subst he
  exact absurd h (by decide)

lemma isDigit_ne_newline (c : Char) (h : c.isDigit = true) : c ≠ '\n' := by
  intro he
  subst he
  exact absurd h (by decide)

lemma isDigit_pyIsDigit (c : Char) (h : c.isDigit = true) : pyIsDigit c = true := by
  simp [pyIsDigit, h]

lemma pyStrIsDigit_natDigits (n : Nat) : pyStrIsDigit (natDigits n) = true := by
  rw [pyStrIsDigit]
  have h1 : (natDigits n).isEmpty = false := by
    rw [List.isEmpty_eq_false_iff_exists_mem]
    cases hd : natDigits n with
    | nil => exact absurd hd (natDigits_ne_nil n)
    | cons c cs => exact ⟨c, by simp⟩
  rw [h1]
  simp only [Bool.not_false, Bool.true_and, List.all_eq_true]
  intro c hc
  exact isDigit_pyIsDigit c (mem_natDigits_isDigit n c hc)

lemma pyIntOfString_natDigits (n : Nat) : pyIntOfString (natDigits n) = some n := by
  rw [pyIntOfString, if_pos, natOfDigits_natDigits]
  have h1 : (natDigits n).isEmpty = false := by
    rw [List.isEmpty_eq_false_iff_exists_mem]
    cases hd : natDigits n with
    | nil => exact absurd hd (natDigits_ne_nil n)
    | cons c cs => exact ⟨c, by simp⟩
  rw [h1]
  simp only [Bool.not_false, Bool.true_and, List.all_eq_true]
  exact fun c hc => mem_natDigits_isDigit n c hc

/-! ## Facts about stripping and splitting -/

lemma length_dropWhile_le (p : Char → Bool) (l : List Char) :
    (l.dropWhile p).length ≤ l.length := by
  induction l with
  | nil => simp
  | cons a t ih =>
    rw [List.dropWhile_cons]
    by_cases hp : p a = true
    · rw [if_pos hp]
      exact Nat.le_succ_of_le ih
    · rw [if_neg hp]

lemma dropWhile_cons_neg (p : Char → Bool) (c : Char) (cs : List Char) (h : p c = false) :
    (c :: cs).dropWhile p = c :: cs := by
  rw [List.dropWhile_cons, h]
  simp

lemma dropWhile_append_all (p : Char → Bool) (a b : List Char) (h : ∀ c ∈ a, p c = true) :
    (a ++ b).dropWhile p = b.dropWhile p := by
  induction a with
  | nil => rfl
  | cons x t ih =>
    rw [List.cons_append, List.dropWhile_cons, if_pos (h x (by simp))]
    exact ih (fun c hc => h c (by simp [hc]))

lemma dropWhile_all_false (p : Char → Bool) (l : List Char) (h : ∀ c ∈ l, p c = false) :
    l.dropWhile p = l := by
  cases l with
  | nil => rfl
  | cons c cs => exact dropWhile_cons_neg p c cs (h c (by simp))

lemma takeWhile_append_cons (p : Char → Bool) (a : List Char) (c : Char) (b : List Char)
    (ha : ∀ x ∈ a, p x = true) (hc : p c = false) :
    (a ++ c :: b).takeWhile p = a := by
  induction a with
  | nil => simp [List.takeWhile_cons, hc]
  | cons x t ih =>
    rw [List.cons_append, List.takeWhile_cons, if_pos (ha x (by simp))]
    rw [ih (fun y hy => ha y (by simp [hy]))]

lemma dropWhile_append_cons (p : Char → Bool) (a : List Char) (c : Char) (b : List Char)
    (ha : ∀ x ∈ a, p x = true) (hc : p c = false) :
    (a ++ c :: b).dropWhile p = c :: b := by
  rw [dropWhile_append_all p a _ ha]
  exact dropWhile_cons_neg p c b hc

lemma trimChars_eq_self_of (l : List Char)
    (h1 : l.dropWhile isPyWhitespace = l)
    (h2 : l.reverse.dropWhile isPyWhitespace = l.reverse) :
    trimChars l = l := by
  unfold trimChars
  rw [h1, h2, List.reverse_reverse]

lemma dropWhile_eq_self_head (p : Char → Bool) (l : List Char) (h : l.dropWhile p = l)
    (c : Char) (cs : List Char) (hl : l = c :: cs) : p c = false := by
  subst hl
  by_contra hp
  rw [Bool.not_eq_false] at hp
  rw [List.dropWhile_cons, if_pos hp] at h
  have hle := length_dropWhile_le p cs
  have := congrArg List.length h
  simp at this
  omega

lemma trimChars_parts (l : List Char) (h : trimChars l = l) :
    l.dropWhile isPyWhitespace = l ∧ l.reverse.dropWhile isPyWhitespace = l.reverse := by
  have hlen : (trimChars l).length = l.length := by rw [h]
  have h2le : (trimChars l).length ≤ (l.dropWhile isPyWhitespace).length := by
    unfold trimChars
    rw [List.length_reverse]
    calc ((l.dropWhile isPyWhitespace).reverse.dropWhile isPyWhitespace).length
        ≤ (l.dropWhile isPyWhitespace).reverse.length := length_dropWhile_le _ _
      _ = (l.dropWhile isPyWhitespace).length := List.length_reverse _
  have h1le := length_dropWhile_le isPyWhitespace l
  have h1eq : (l.dropWhile isPyWhitespace).length = l.length := by omega
  have h1 : l.dropWhile isPyWhitespace = l := by
    cases l with
    | nil => rfl
    | cons c cs =>
      by_cases hp : isPyWhitespace c = true
      · exfalso
        rw [List.dropWhile_cons, if_pos hp] at h1eq
        have := length_dropWhile_le isPyWhitespace cs
        simp at h1eq
        omega
      · rw [Bool.not_eq_true] at hp
        exact dropWhile_cons_neg _ _ _ hp
  refine ⟨h1, ?_⟩
  unfold trimChars at h
  rw [h1] at h
  have := congrArg List.reverse h
  rwa [List.reverse_reverse] at this

lemma reverse_head_not_ws (l : List Char) (hne : l ≠ []) (ht : trimChars l = l) :
    ∃ d ds, l.reverse = d :: ds ∧ isPyWhitespace d = false := by
  obtain ⟨h1, h2⟩ := trimChars_parts l ht
  cases hr : l.reverse with
  | nil => exact absurd (List.reverse_eq_nil_iff.mp hr) hne
  | cons d ds =>
    exact ⟨d, ds, rfl, dropWhile_eq_self_head _ _ h2 d ds hr⟩

lemma head_not_ws (l : List Char) (hne : l ≠ []) (ht : trimChars l = l) :
    ∃ d ds, l = d :: ds ∧ isPyWhitespace d = false := by
  obtain ⟨h1, h2⟩ := trimChars_parts l ht
  cases hr : l with
  | nil => exact absurd hr hne
  | cons d ds =>
    exact ⟨d, ds, rfl, dropWhile_eq_self_head _ _ h1 d ds hr⟩

lemma intercalate_singleton (s : List Char) (l : List Char) : List.intercalate s [l] = l := by
  simp [List.intercalate, List.intersperse_singleton]

lemma intercalate_cons_cons (s a b : List Char) (t : List (List Char)) :
    List.intercalate s (a :: b :: t) = a ++ s ++ List.intercalate s (b :: t) := by
  simp [List.intercalate, List.intersperse_cons_cons, List.append_assoc]

lemma intercalate_ends (s : List Char) (ls : List (List Char)) (l : List Char) :
    ∃ a : List Char, List.intercalate s (ls ++ [l]) = a ++ l := by
  induction ls with
  | nil =>
    refine ⟨[], ?_⟩
    rw [List.nil_append, intercalate_singleton, List.nil_append]
  | cons x t ih =>
    obtain ⟨a, ha⟩ := ih
    cases ht : t ++ [l] with
    | nil => exact absurd ht (by simp)
    | cons b u =>
      refine ⟨x ++ s ++ a, ?_⟩
      rw [List.cons_append, ht, intercalate_cons_cons, ← ht, ha]
      simp [List.append_assoc]

lemma splitOn_no_sep (sep : Char) (l : List Char) (h : sep ∉ l) :
    List.splitOn sep l = [l] := by
  have := List.splitOn_intercalate [l] sep (by simpa using h) (by simp)
  rwa [show ([sep].intercalate [l] : List Char) = l from intercalate_singleton [sep] l] at this

/-! ## Synthetic replies and the parser round trip -/

lemma string_mk_data (s : String) : String.mk s.data = s := rfl

lemma dropWhile_eq_self_of_head_false (p : Char → Bool) (l : List Char)
    (h : ∃ c cs, l = c :: cs ∧ p c = false) : l.dropWhile p = l := by
  obtain ⟨c, cs, rfl, hc⟩ := h
  exact dropWhile_cons_neg p c cs hc

lemma natDigits_not_ws (n : Nat) : ∀ c ∈ natDigits n, isPyWhitespace c = false :=
  fun c hc => isDigit_not_ws c (mem_natDigits_isDigit n c hc)

lemma natDigits_bne_colon (n : Nat) : ∀ c ∈ natDigits n, (c != ':') = true :=
  fun c hc => bne_iff_ne.mpr (isDigit_ne_colon c (mem_natDigits_isDigit n c hc))

lemma natDigits_no_newline (n : Nat) : '\n' ∉ natDigits n :=
  fun h => isDigit_ne_newline '\n' (mem_natDigits_isDigit n _ h) rfl

lemma trimChars_natDigits (n : Nat) : trimChars (natDigits n) = natDigits n := by
  apply trimChars_eq_self_of
  · exact dropWhile_all_false _ _ (natDigits_not_ws n)
  · exact dropWhile_all_false _ _ (fun c hc => natDigits_not_ws n c (List.mem_reverse.mp hc))

lemma exists_head_append_natDigits (n : Nat) (x : List Char) :
    ∃ c cs, natDigits n ++ x = c :: cs ∧ isPyWhitespace c = false := by
  obtain ⟨c, cs, hcons, hcws⟩ :=
    head_not_ws (natDigits n) (natDigits_ne_nil n) (trimChars_natDigits n)
  exact ⟨c, cs ++ x, by rw [hcons]; rfl, hcws⟩

lemma beforeColon_natDigits (n : Nat) (rest : List Char) :
    beforeColon (natDigits n ++ ':' :: rest) = natDigits n := by
  unfold beforeColon
  exact takeWhile_append_cons _ _ _ _ (natDigits_bne_colon n) (by decide)

lemma afterColon_natDigits (n : Nat) (rest : List Char) :
    afterColon (natDigits n ++ ':' :: rest) = rest := by
  unfold afterColon
  rw [dropWhile_append_cons _ _ _ _ (natDigits_bne_colon n) (by decide)]
  rfl

lemma contains_colon_append (n : Nat) (rest : List Char) :
    (natDigits n ++ ':' :: rest).contains ':' = true := by
  rw [show (natDigits n ++ ':' :: rest).contains ':' =
      (natDigits n ++ ':' :: rest).elem ':' from rfl, List.elem_iff]
  exact List.mem_append.mpr (Or.inr (by simp))

lemma isEmpty_append_natDigits (n : Nat) (x : List Char) :
    (natDigits n ++ x).isEmpty = false := by
  obtain ⟨c, cs, hcons, _⟩ := exists_head_append_natDigits n x
  rw [hcons]
  rfl

lemma trimChars_syntheticLine (n : Nat) (text : List Char) (hne : text ≠ [])
    (ht : trimChars text = text) :
    trimChars (natDigits n ++ ':' :: ' ' :: text) = natDigits n ++ ':' :: ' ' :: text := by
  obtain ⟨d, ds, hrev, hdws⟩ := reverse_head_not_ws text hne ht
  apply trimChars_eq_self_of
  · exact dropWhile_eq_self_of_head_false _ _
      (exists_head_append_natDigits n (':' :: ' ' :: text))
  · apply dropWhile_eq_self_of_head_false
    refine ⟨d, ds ++ ' ' :: ':' :: (natDigits n).reverse, ?_, hdws⟩
    rw [List.reverse_append]
    rw [show (':' :: ' ' :: text).reverse = text.reverse ++ [' ', ':'] from by
      rw [List.reverse_cons, List.reverse_cons, List.append_assoc]; rfl]
    rw [hrev, List.cons_append, List.cons_append, List.append_assoc]
    rfl

lemma trimChars_space_cons (text : List Char)
    (ht : trimChars text = text) :
    trimChars (' ' :: text) = text := by
  unfold trimChars
  rw [List.dropWhile_cons, if_pos (by decide), (trimChars_parts text ht).1,
    (trimChars_parts text ht).2, List.reverse_reverse]

lemma parseLine_syntheticLine (st : ParseState) (n : Nat) (text : List Char)
    (hne : text ≠ []) (ht : trimChars text = text) :
    parseLine st (natDigits n ++ ':' :: ' ' :: text) =
      .ok { translations := flushCurrent st, currentId := some n,
            currentTranslation := [text] } := by
  have htr := trimChars_syntheticLine n text hne ht
  have hbc : trimChars (beforeColon (natDigits n ++ ':' :: ' ' :: text)) = natDigits n := by
    rw [beforeColon_natDigits, trimChars_natDigits]
  have hac : trimChars (afterColon (natDigits n ++ ':' :: ' ' :: text)) = text := by
    rw [afterColon_natDigits]
    exact trimChars_space_cons text ht
  unfold parseLine
  simp only [htr, hbc, hac, isEmpty_append_natDigits, contains_colon_append,
    pyStrIsDigit_natDigits, pyIntOfString_natDigits, Bool.and_self, if_true,
    Bool.false_eq_true, if_false]

lemma parse_fold (pairs : List (Nat × String))
    (h1 : ∀ p ∈ pairs, p.2.data ≠ [])
    (h2 : ∀ p ∈ pairs, trimChars p.2.data = p.2.data) :
    ∀ st : ParseState,
      (match (pairs.map syntheticLine).foldlM parseLine st with
        | .error e => Except.error e
        | .ok st2 => Except.ok (flushCurrent st2)) =
      Except.ok (flushCurrent st ++
        pairs.map (fun p => { id := p.1, translation := p.2 : TranslatedRecord })) := by
  induction pairs with
  | nil =>
    intro st
    rw [List.map_nil, List.foldlM_nil]
    show Except.ok (flushCurrent st) = _
    rw [List.map_nil, List.append_nil]
  | cons p rest ih =>
    intro st
    rw [List.map_cons, List.foldlM_cons,
      show syntheticLine p = natDigits p.1 ++ ':' :: ' ' :: p.2.data from rfl,
      parseLine_syntheticLine st p.1 p.2.data (h1 p (by simp)) (h2 p (by simp))]
    show (match (rest.map syntheticLine).foldlM parseLine
        { translations := flushCurrent st, currentId := some p.1,
          currentTranslation := [p.2.data] } with
      | .error e => Except.error e
      | .ok st2 => Except.ok (flushCurrent st2)) = _
    rw [ih (fun q hq => h1 q (by simp [hq])) (fun q hq => h2 q (by simp [hq]))
      { translations := flushCurrent st, currentId := some p.1,
        currentTranslation := [p.2.data] }]
    have hflush : flushCurrent
        { translations := flushCurrent st, currentId := some p.1,
          currentTranslation := [p.2.data] } =
        flushCurrent st ++ [{ id := p.1, translation := p.2 : TranslatedRecord }] := by
      simp [flushCurrent, intercalate_singleton, string_mk_data]
    rw [hflush]
    simp [List.append_assoc]

/-- C2: feeding the parser the newline-joined lines `"{id}: {text}"` for any
finite list of (id, text) pairs — each id a decimal integer, each text a
single-line, whitespace-trimmed, non-empty string whose pre-colon text is not
purely numeric — returns exactly those (id, text) pairs, in order. -/
theorem parse_roundtrip (pairs : List (Nat × String))
    (h1 : ∀ p ∈ pairs, p.2.data ≠ [])
    (h2 : ∀ p ∈ pairs, trimChars p.2.data = p.2.data)
    (h3 : ∀ p ∈ pairs, '\n' ∉ p.2.data)
    (h4 : ∀ p ∈ pairs, p.2.data.contains ':' = true →
      pyStrIsDigit (trimChars (beforeColon p.2.data)) = false) :
    parse_gemini_response (syntheticReply pairs) =
      Except.ok (pairs.map (fun p => { id := p.1, translation := p.2 : TranslatedRecord })) := by
  cases pairs with
  | nil => rfl
  | cons p rest =>
    have hnl : ∀ l ∈ (p :: rest).map syntheticLine, '\n' ∉ l := by
      intro l hl
      obtain ⟨q, hq, rfl⟩ := List.mem_map.mp hl
      intro hmemc
      rw [show syntheticLine q = natDigits q.1 ++ ':' :: ' ' :: q.2.data from rfl] at hmemc
      rcases List.mem_append.mp hmemc with hd | htl
      · exact natDigits_no_newline q.1 hd
      · simp only [List.mem_cons] at htl
        rcases htl with h | h | h
        · exact absurd h (by decide)
        · exact absurd h (by decide)
        · exact h3 q hq h
    have htrimall : trimChars (List.intercalate ['\n'] ((p :: rest).map syntheticLine)) =
        List.intercalate ['\n'] ((p :: rest).map syntheticLine) := by
      apply trimChars_eq_self_of
      · obtain ⟨c, cs, hcons, hcws⟩ :=
          exists_head_append_natDigits p.1 (':' :: ' ' :: p.2.data)
        apply dropWhile_eq_self_of_head_false
        cases rest with
        | nil =>
          rw [List.map_cons, List.map_nil, intercalate_singleton]
          exact ⟨c, cs, hcons, hcws⟩
        | cons p2 r2 =>
          rw [List.map_cons, List.map_cons, intercalate_cons_cons]
          refine ⟨c, cs ++ ['\n'] ++
            List.intercalate ['\n'] (syntheticLine p2 :: r2.map syntheticLine), ?_, hcws⟩
          rw [show syntheticLine p = natDigits p.1 ++ ':' :: ' ' :: p.2.data from rfl, hcons]
          rfl
      · rcases List.eq_nil_or_concat (p :: rest) with hnil | ⟨L, b, hLb⟩
        · exact absurd hnil (by simp)
        · rw [List.concat_eq_append] at hLb
          have hbmem : b ∈ p :: rest := by
            rw [hLb]
            exact List.mem_append.mpr (Or.inr (by simp))
          obtain ⟨d, ds, hrevtext, hdws⟩ :=
            reverse_head_not_ws b.2.data (h1 b hbmem) (h2 b hbmem)
          rw [hLb, List.map_append, List.map_cons, List.map_nil]
          obtain ⟨a, ha⟩ := intercalate_ends ['\n'] (L.map syntheticLine) (syntheticLine b)
          rw [ha]
          apply dropWhile_eq_self_of_head_false
          refine ⟨d, ds ++ ' ' :: ':' :: ((natDigits b.1).reverse ++ a.reverse), ?_, hdws⟩
          rw [List.reverse_append,
            show syntheticLine b = natDigits b.1 ++ ':' :: ' ' :: b.2.data from rfl,
            List.reverse_append,
            show (':' :: ' ' :: b.2.data).reverse = b.2.data.reverse ++ [' ', ':'] from by
              rw [List.reverse_cons, List.reverse_cons, List.append_assoc]; rfl,
            hrevtext]
          simp [List.append_assoc]
    unfold parse_gemini_response syntheticReply
    rw [show (String.mk (List.intercalate ['\n'] ((p :: rest).map syntheticLine))).data
        = List.intercalate ['\n'] ((p :: rest).map syntheticLine) from rfl,
      htrimall,
      List.splitOn_intercalate ((p :: rest).map syntheticLine) '\n' hnl (by simp)]
    have hfold := parse_fold (p :: rest) h1 h2
      { translations := [], currentId := none, currentTranslation := [] }
    rw [show flushCurrent
        { translations := [], currentId := none, currentTranslation := [] } = []
      from rfl, List.nil_append] at hfold
    exact hfold

/-- Witness for C2 at two concrete (id, text) pairs. -/
theorem parse_roundtrip_witness :
    parse_gemini_response (syntheticReply [(7, "bonjour"), (12, "salut monde")]) =
      Except.ok [{ id := 7, translation := "bonjour" },
        { id := 12, translation := "salut monde" }] :=
  parse_roundtrip [(7, "bonjour"), (12, "salut monde")]
    (by decide) (by decide) (by decide) (by decide)

/-- C6 (amended): an identifier line followed by nothing but whitespace (blank
lines or end of input) emits exactly one record, whose translation is the —
possibly empty — text after the colon on the identifier line itself. -/
theorem identifier_line_no_content (n : Nat) (wsl : List Char)
    (hws : ∀ c ∈ wsl, isPyWhitespace c = true) :
    parse_gemini_response (String.mk (natDigits n ++ ':' :: wsl)) =
      Except.ok [{ id := n, translation := "" }] := by
  have htrim : trimChars (natDigits n ++ ':' :: wsl) = natDigits n ++ [':'] := by
    unfold trimChars
    rw [dropWhile_eq_self_of_head_false _ _ (exists_head_append_natDigits n (':' :: wsl)),
      show (natDigits n ++ ':' :: wsl).reverse =
        wsl.reverse ++ ':' :: (natDigits n).reverse from by
        rw [List.reverse_append, List.reverse_cons]
        simp [List.append_assoc],
      dropWhile_append_all _ _ _ (fun c hc => hws c (List.mem_reverse.mp hc)),
      dropWhile_cons_neg _ _ _ (by decide), List.reverse_cons, List.reverse_reverse]
  have hline : parseLine
      { translations := [], currentId := none, currentTranslation := [] }
      (natDigits n ++ [':']) =
      .ok { translations := [], currentId := some n, currentTranslation := [[]] } := by
    have htr2 : trimChars (natDigits n ++ [':']) = natDigits n ++ [':'] := by
      apply trimChars_eq_self_of
      · exact dropWhile_eq_self_of_head_false _ _ (exists_head_append_natDigits n [':'])
      · rw [show (natDigits n ++ [':']).reverse = ':' :: (natDigits n).reverse from by
          rw [List.reverse_append]; rfl]
        exact dropWhile_cons_neg _ _ _ (by decide)
    have hbc : trimChars (beforeColon (natDigits n ++ [':'])) = natDigits n := by
      rw [show (natDigits n ++ [':']) = natDigits n ++ ':' :: [] from rfl,
        beforeColon_natDigits, trimChars_natDigits]
    have hac : trimChars (afterColon (natDigits n ++ [':'])) = [] := by
      rw [show (natDigits n ++ [':']) = natDigits n ++ ':' :: [] from rfl,
        afterColon_natDigits]
      rfl
    unfold parseLine
    simp only [htr2, hbc, hac, isEmpty_append_natDigits, contains_colon_append,
      pyStrIsDigit_natDigits, pyIntOfString_natDigits, Bool.and_self, if_true,
      Bool.false_eq_true, if_false]
    rfl
  have hnonl : '\n' ∉ natDigits n ++ [':'] := by
    intro hmem
    rcases List.mem_append.mp hmem with hd | htl
    · exact natDigits_no_newline n hd
    · rw [List.mem_singleton] at htl
      exact absurd htl (by decide)
  unfold parse_gemini_response
  rw [show (String.mk (natDigits n ++ ':' :: wsl)).data = natDigits n ++ ':' :: wsl
      from rfl,
    htrim, splitOn_no_sep '\n' _ hnonl, List.foldlM_cons, hline]
  rfl

/-- Witness for the amended C6: id 5 followed only by whitespace and blank
lines. -/
theorem identifier_line_no_content_witness :
    parse_gemini_response (String.mk (natDigits 5 ++ ':' :: [' ', '\n', '\t'])) =
      Except.ok [{ id := 5, translation := "" }] :=
  identifier_line_no_content 5 [' ', '\n', '\t'] (by decide)

/-! ## Prompt builder: one entry per record, in order, with the id verbatim -/

/-- C9: the prompt is the fixed header followed by exactly one formatted entry
per record, in chunk order, each entry starting with that record's id
verbatim after `ID: `; as a Lean function the builder is pure and
deterministic by construction. -/
theorem create_batch_prompt_entries (targetLanguage : String) (hadiths : List Hadith) :
    ∃ entries : List String,
      create_batch_prompt targetLanguage hadiths =
        promptHeader targetLanguage ++ String.intercalate "\n\n" entries ∧
      List.Forall₂ (fun (h : Hadith) (e : String) =>
        ∃ rest : String, e = "ID: " ++ toString h.id ++ "\n" ++ rest) hadiths entries := by
  refine ⟨hadiths.map hadithEntry, rfl, ?_⟩
  rw [List.forall₂_map_right_iff, List.forall₂_same]
  intro h _
  refine ⟨"Arabic: " ++ h.arabic ++ "\n" ++ "English: " ++ englishTextOf h, ?_⟩
  rw [hadithEntry]
  apply String.ext
  simp only [String.data_append, List.append_assoc]

/-- Witness for C9 at the concrete 25-record input. -/
theorem create_batch_prompt_entries_witness :
    ∃ entries : List String,
      create_batch_prompt "French" hadiths25 =
        promptHeader "French" ++ String.intercalate "\n\n" entries ∧
      List.Forall₂ (fun (h : Hadith) (e : String) =>
        ∃ rest : String, e = "ID: " ++ toString h.id ++ "\n" ++ rest) hadiths25 entries :=
  create_batch_prompt_entries "French" hadiths25
